import Mathlib

set_option autoImplicit false

/-!
Shallow embedding of the continual-segmentation core of the SimCIS repository:
the pseudo-label generator (`MaskFormer.generate_psd_targets`), the loss
orchestration in `SetCriterion.forward`, the fake-query matching adapter
(`SetCriterion._remove_fake_query`, `SetCriterion._modify_indices_targets_for_fake_query`),
the replay-cache writer (`MaskFormer.forward` store block, `Trainer.after_train` merge),
and the psd-label inference filter (`MaskFormer.forward`, eval branch).

Rasters are flattened pixel lists: a binary mask is a `List Bool`, a probability
mask a `List ℚ` (machine floats are modelled by rationals; every comparison in
the modelled code is order-based, so this is faithful for the proved properties).
-/

namespace SimCIS

/-- A bounding box in normalized center-size format, `(cx, cy, w, h)`. -/
abbrev Box := ℚ × ℚ × ℚ × ℚ

/-- Binary raster, flattened row-major. -/
abbrev BinMask := List Bool

/-- Probability raster, flattened row-major. -/
abbrev ProbMask := List ℚ

/-- Per-image annotation set, mirroring the labels/masks/boxes dicts
built by `MaskFormer.prepare_targets` and threaded through the criterion. -/
structure Target where
  labels : List Nat
  masks : List BinMask
  boxes : List Box
deriving Repr, DecidableEq

/-- The empty per-image target (zero-length sequences). -/
def emptyTarget : Target := ⟨[], [], []⟩

/-- Per-image old-model prediction set, mirroring the `old_pred` dicts consumed by
`MaskFormer.generate_psd_targets`: class labels, confidence scores, probability
mask rasters and boxes, index-aligned. -/
structure OldPred where
  labels : List Nat
  scores : List ℚ
  masks : List ProbMask
  boxes : List Box
deriving Repr, DecidableEq

/-! ## Matching adapter: `SetCriterion._remove_fake_query`
(src/mask2former/modeling/criterion.py lines 553-558).

The python maps the slicing over every entry of the outputs dict; the
second (query) dimension of a tensor is modelled as a list of query slots. -/

/-- `fake_num = v.shape[1] - 100; v[:, :-fake_num] if fake_num > 0 else v`,
acting on the query-slot dimension of one prediction tensor. -/
def remove_fake_query {α : Type} (v : List α) : List α :=
  let fakeNum : Int := (v.length : Int) - 100
  if 0 < fakeNum then v.take (v.length - fakeNum.toNat) else v

/-! ## Loss normalizer (src/mask2former/modeling/criterion.py lines 483-490).

`num_masks` is the batch-local target count, summed across workers by
`all_reduce`, divided by the world size, and clamped below at 1. -/

/-- Batch-local target count: `sum(len(t["labels"]) for t in complete_psd_targets)`. -/
def num_masks_local (targets : List Target) : Nat :=
  (targets.map (fun t => t.labels.length)).sum

/-- The normalizer after the collective sum, division by the world size, and
`torch.clamp(·, min=1)`: each element of `perWorker` is the batch of one worker. -/
def num_masks_normalizer (perWorker : List (List Target)) (world_size : Nat) : ℚ :=
  max (((perWorker.map num_masks_local).sum : ℚ) / (world_size : ℚ)) 1

/-! ## Replay cache ("query library")

Per-worker writing: `MaskFormer.forward`, store-fake-query block
(src/mask2former/maskformer_model.py lines 330-342); cross-worker merge:
`Trainer.after_train` (src/continual/trainer.py lines 484-503) together with
`deque_factory` (trainer.py lines 565-566). A python `deque(maxlen=m)` carries
its own capacity, so each cache entry records the capacity it was created with. -/

/-- A harvested decoder feature vector (`med_feats[index][q].tolist()`). -/
abbrev Feat := List ℚ

/-- One per-class cache entry: class label, the `maxlen` of its deque, and its
buffer contents oldest-first. -/
structure LibEntry where
  cls : Nat
  maxlen : Nat
  buffer : List Feat
deriving Repr, DecidableEq

/-- The `collect` dict: class label to bounded deque, in key-insertion order. -/
abbrev Collect := List LibEntry

/-- `deque.append(x)` on a deque with capacity `maxlen`: push right, evicting
from the left when full (for `maxlen = 0` the deque stays empty). -/
def dequeAppend {α : Type} (maxlen : Nat) (d : List α) (x : α) : List α :=
  let d2 := d ++ [x]
  d2.drop (d2.length - maxlen)

/-- `deque.extend(xs)`: repeated `append`. -/
def dequeExtend {α : Type} (maxlen : Nat) (d : List α) (xs : List α) : List α :=
  xs.foldl (dequeAppend maxlen) d

/-- One iteration of the store-fake-query block for a matched `(query, target)`
pair: if `gt_class not in self.collect`, create `deque(maxlen=lib_size // world_size)`;
then append the matched query feature to the deque of that class (at its own capacity). -/
def insertFeature (lib_size world_size : Nat) (c : Collect) (cls : Nat) (f : Feat) : Collect :=
  if (c.map LibEntry.cls).contains cls then
    c.map (fun e => if e.cls = cls then ⟨e.cls, e.maxlen, dequeAppend e.maxlen e.buffer f⟩ else e)
  else
    c ++ [⟨cls, lib_size / world_size, dequeAppend (lib_size / world_size) [] f⟩]

/-- The per-worker buffer produced by running the store block over a sequence of
matched `(class, feature)` pairs, starting from an empty `collect`. -/
def writeWorkerBuffer (lib_size world_size : Nat) (inserts : List (Nat × Feat)) : Collect :=
  inserts.foldl (fun c i => insertFeature lib_size world_size c i.1 i.2) []

/-- One step of the `after_train` merge for a single gathered entry: the
`defaultdict(deque_factory_with_size)` creates a fresh `deque(maxlen=LIB_SIZE)`
for a missing class, then `combined_collect[key].extend(deque_value)`. -/
def extendEntry (lib_size : Nat) (acc : Collect) (cls : Nat) (xs : List Feat) : Collect :=
  if (acc.map LibEntry.cls).contains cls then
    acc.map (fun e => if e.cls = cls then ⟨e.cls, e.maxlen, dequeExtend e.maxlen e.buffer xs⟩ else e)
  else
    acc ++ [⟨cls, lib_size, dequeExtend lib_size [] xs⟩]

/-- The rank-0 merge in `Trainer.after_train`: fold the gathered
`collect` of every worker into a `defaultdict` of `deque(maxlen=LIB_SIZE)` buffers; the result
is what `torch.save` persists as `fake_query.pkl` for the next task. -/
def mergeCollect (lib_size : Nat) (gathered : List Collect) : Collect :=
  gathered.foldl (fun acc c => c.foldl (fun acc2 e => extendEntry lib_size acc2 e.cls e.buffer) acc) []

/-! ## Target fusion in `SetCriterion.forward`
(src/mask2former/modeling/criterion.py lines 449-476). The same memory-image
test also appears (unused) in `MaskFormer.generate_psd_targets` lines 450-459. -/

/-- The per-image memory-image flag:
`np.logical_not(np.isin(labels, current_catagory_ids)).sum() != 0`,
i.e. the target carries at least one label outside the current-task range. -/
def memory_part (current_catagory_ids : List Nat) (t : Target) : Bool :=
  t.labels.any (fun l => ! (current_catagory_ids.contains l))

/-- Concatenation of a pseudo target in front of a real target, as in
`torch.cat([p[...], t[...]])` for each of the three fields. -/
def concatTarget (p t : Target) : Target :=
  ⟨p.labels ++ t.labels, p.masks ++ t.masks, p.boxes ++ t.boxes⟩

/-- The `complete_psd_targets` list built by `SetCriterion.forward`: the real
targets alone when no pseudo targets were supplied (`psd_targets is None or
old_targets is None`), otherwise per image either the real target alone (memory
image) or pseudo-then-real concatenation. -/
def complete_psd_targets (current_catagory_ids : List Nat) (targets : List Target)
    (psd_targets : Option (List Target)) : List Target :=
  match psd_targets with
  | none => targets
  | some psd =>
      List.zipWith
        (fun p t =>
          if memory_part current_catagory_ids t then ⟨t.labels, t.masks, t.boxes⟩
          else concatTarget p t)
        psd targets

/-! ## Matching adapter: `SetCriterion._modify_indices_targets_for_fake_query`
(src/mask2former/modeling/criterion.py lines 560-586). A per-image match is a
pair of index lists (prediction side, target side). -/

/-- `max(indice[1]) if len(indice[1]) > 0 else tensor(-1)`: the largest matched
target index of one image, `-1` when the match is empty. -/
def max_indice (tgt : List Nat) : Int :=
  tgt.foldl (fun a b => max a (b : Int)) (-1)

/-- Per-image extension of one match: append query slots `100 .. 100+vq_number`
on the prediction side and `max_indice+1 .. max_indice+vq_number` on the target
side. -/
def modify_matching (vq_number : Nat) (m : List Nat × List Nat) : List Nat × List Nat :=
  (m.1 ++ (List.range vq_number).map (fun i => 100 + i),
   m.2 ++ (List.range vq_number).map (fun (i : Nat) => (max_indice m.2 + (i : Int) + 1).toNat))

/-- `_modify_indices_targets_for_fake_query`: pass-through when
`fake_query_labels is None`; otherwise extend the match of every image by
`vq_number` synthetic pairs and append the sampled synthetic labels to the
target label list of each image. -/
def modify_indices_targets_for_fake_query (vq_number : Nat)
    (indices : List (List Nat × List Nat)) (targets : List Target)
    (fake_query_labels : Option (List (List Nat))) :
    List (List Nat × List Nat) × List Target :=
  match fake_query_labels with
  | none => (indices, targets)
  | some fqls =>
      (indices.map (modify_matching vq_number),
       List.zipWith (fun t fql => ⟨t.labels ++ fql, t.masks, t.boxes⟩) targets fqls)

/-! ## Loss-call schedule of `SetCriterion.forward`
(src/mask2former/modeling/criterion.py lines 492-537): the primary loop, the
per-auxiliary-layer loop (`kd` hits `continue`), and the interm block. -/

/-- The loss names requested of the criterion (`self.losses`). -/
inductive LossKind
  | labels
  | masks
  | points
  | kd
deriving Repr, DecidableEq

/-- The output scope a `get_loss` call is evaluated on. -/
inductive Scope
  | primary
  | aux (i : Nat)
  | interm
deriving Repr, DecidableEq

/-- One `get_loss` invocation: which loss, on which scope, and — for `kd` — the
softmax temperature passed. -/
structure LossCall where
  kind : LossKind
  scope : Scope
  temperature : Option ℚ
deriving Repr, DecidableEq

/-- The primary-scope loop: `kd` is evaluated with `self.kd_temperature2` and
skipped entirely when `self.kd_deocder` is false. -/
def primaryCalls (losses : List LossKind) (kd_decoder : Bool) (kd_temperature2 : ℚ) :
    List LossCall :=
  losses.filterMap (fun l =>
    match l with
    | .kd => if kd_decoder then some ⟨.kd, .primary, some kd_temperature2⟩ else none
    | _ => some ⟨l, .primary, none⟩)

/-- The auxiliary-layer loop over `outputs["aux_outputs"]`: `kd` always hits
`continue` and is never evaluated on an auxiliary scope. -/
def auxCalls (losses : List LossKind) (aux_count : Nat) : List LossCall :=
  (List.range aux_count).flatMap (fun i =>
    losses.filterMap (fun l =>
      match l with
      | .kd => none
      | _ => some ⟨l, .aux i, none⟩))

/-- The interm block, run when `"interm_outputs" in outputs`: `kd` is evaluated
with `self.kd_temperature`. -/
def intermCalls (losses : List LossKind) (has_interm : Bool) (kd_temperature : ℚ) :
    List LossCall :=
  if has_interm then
    losses.map (fun l =>
      match l with
      | .kd => ⟨.kd, .interm, some kd_temperature⟩
      | _ => ⟨l, .interm, none⟩)
  else []

/-- The full per-step schedule of `get_loss` invocations in
`SetCriterion.forward`, in program order. -/
def lossSchedule (losses : List LossKind) (aux_count : Nat) (has_interm kd_decoder : Bool)
    (kd_temperature kd_temperature2 : ℚ) : List LossCall :=
  primaryCalls losses kd_decoder kd_temperature2 ++ auxCalls losses aux_count ++
    intermCalls losses has_interm kd_temperature

/-! ## The two matcher call sites

Loss path: `SetCriterion.forward` lines 479-481 — predictions are stripped of
fake-query slots and targets are the memory-aware fusion. Cache path:
`MaskFormer.forward` lines 314-343 — predictions are passed whole and the
targets of every image are the unconditional pseudo-then-real concatenation. -/

/-- The `complete_psd_targets` of the store-fake-query block: unconditional
`torch.cat` fusion for every image when an old prediction is present
(`old_pred is not None`), the real targets otherwise. -/
def cache_complete_psd_targets (targets : List Target)
    (precise_targets : Option (List Target)) : List Target :=
  match precise_targets with
  | none => targets
  | some psd => List.zipWith concatTarget psd targets

/-- The (predictions, targets) pair handed to `self.criterion.matcher` in the
store-fake-query block of `MaskFormer.forward`: query slots untouched. -/
def cacheMatcherCall {α : Type} (outputs : List α) (targets : List Target)
    (precise_targets : Option (List Target)) : List α × List Target :=
  (outputs, cache_complete_psd_targets targets precise_targets)

/-- The (predictions, targets) pair handed to `self.matcher` in the loss path of
`SetCriterion.forward`: fake-query slots removed, memory-aware fusion. -/
def lossMatcherCall {α : Type} (current_catagory_ids : List Nat) (outputs : List α)
    (targets : List Target) (psd_targets : Option (List Target)) : List α × List Target :=
  (remove_fake_query outputs, complete_psd_targets current_catagory_ids targets psd_targets)

/-! ## Pseudo-label generation: `MaskFormer.generate_psd_targets`
(src/mask2former/maskformer_model.py lines 450-564).

Rasters share one shape per batch; `nPix` is the flattened pixel count and
`width` the raster width (pixel `p` sits at column `p % width`, row `p / width`).
The python function returns a pair `(psd_targets, old_targets)` whose per-image
entries are built from the same expressions (`copy.deepcopy` in the
`combine_psdlabel` branch), so one `Target` value models both list entries.
The `memory_part` flags computed at lines 450-459 are not used in the function
body (the gt-region subtraction at lines 509-510 is unconditional). -/

/-- `old_masks >= 0.5`: binarization of one probability raster. -/
def binarize (m : ProbMask) : BinMask :=
  m.map (fun v => decide ((1/2 : ℚ) ≤ v))

/-- Binarized pixel lookup in a probability raster (out-of-range pixels read 0). -/
def binAt (m : ProbMask) (p : Nat) : Bool :=
  decide ((1/2 : ℚ) ≤ m.getD p 0)

/-- `gt_region = torch.clamp(gt_target["masks"].sum(0).int(), min=0, max=1)`:
the pixel-wise union of the ground-truth masks of one image. -/
def gt_region (masks : List BinMask) (p : Nat) : Bool :=
  masks.any (fun m => m.getD p false)

/-- The score gate at the top of `generate_psd_targets`:
`old_pred["scores"] >= 0.4` when `strict_mode` else `>= 0.0`. -/
def scoreKeep (strict_mode : Bool) (s : ℚ) : Bool :=
  if strict_mode then decide ((4/10 : ℚ) ≤ s) else decide ((0 : ℚ) ≤ s)

/-- Boolean-mask indexing `x[keep]` along the prediction dimension, driven by
the score gate. -/
def filterByScores {α : Type} (strict_mode : Bool) (scores : List ℚ) (xs : List α) :
    List α :=
  ((scores.zip xs).filter (fun sx => scoreKeep strict_mode sx.1)).map Prod.snd

/-- `old_labels = old_pred["labels"][keep]`. -/
def old_labels (strict_mode : Bool) (old : OldPred) : List Nat :=
  filterByScores strict_mode old.scores old.labels

/-- `old_scores = old_pred["scores"][keep]`. -/
def old_scores (strict_mode : Bool) (old : OldPred) : List ℚ :=
  filterByScores strict_mode old.scores old.scores

/-- `old_masks = old_pred["masks"][keep]`. -/
def old_masks (strict_mode : Bool) (old : OldPred) : List ProbMask :=
  filterByScores strict_mode old.scores old.masks

/-- `old_boxes = old_pred["boxes"][keep]`. -/
def old_boxes (strict_mode : Bool) (old : OldPred) : List Box :=
  filterByScores strict_mode old.scores old.boxes

/-- Accumulator loop of `torch.argmax` over the prediction dimension: keep the
first index attaining the running maximum. -/
def argmaxGo (best : ℚ) (bestIdx idx : Nat) : List ℚ → Nat
  | [] => bestIdx
  | x :: xs => if best < x then argmaxGo x idx (idx + 1) xs else argmaxGo best bestIdx (idx + 1) xs

/-- `torch.argmax` along dim 0 (first maximal index; 0 on an empty stack, which
the `old_masks.shape[0] == 0` early return keeps unreachable). -/
def argmaxIdx : List ℚ → Nat
  | [] => 0
  | x :: xs => argmaxGo x 0 1 xs

/-- Pixel column of `prob_masks = old_scores.view(-1, 1, 1) * old_masks`. -/
def prob_masks_at (scores : List ℚ) (masks : List ProbMask) (p : Nat) : List ℚ :=
  List.zipWith (fun s m => s * m.getD p 0) scores masks

/-- `mask_ids = prob_masks.argmax(0)` at pixel `p`. -/
def mask_ids (strict_mode : Bool) (old : OldPred) (p : Nat) : Nat :=
  argmaxIdx (prob_masks_at (old_scores strict_mode old) (old_masks strict_mode old) p)

/-- `old_area[k] = (old_masks[k] >= 0.5).sum()`. -/
def old_area (strict_mode : Bool) (old : OldPred) (k : Nat) : Nat :=
  (binarize ((old_masks strict_mode old).getD k [])).count true

/-- `non_ol_masks[k] = (mask_ids == k) & (old_masks[k] >= 0.5)` followed by
`torch.logical_and(non_ol_masks, torch.logical_not(gt_region))`: the two
pointwise conjunctions of lines 505 and 510 composed per pixel. -/
def non_ol_masks (strict_mode : Bool) (nPix : Nat) (gt : Target) (old : OldPred)
    (k : Nat) : BinMask :=
  (List.range nPix).map (fun p =>
    (decide (mask_ids strict_mode old p = k) && binAt ((old_masks strict_mode old).getD k []) p)
      && !(gt_region gt.masks p))

/-- `new_area[k] = non_ol_masks[k].sum()`. -/
def new_area (strict_mode : Bool) (nPix : Nat) (gt : Target) (old : OldPred) (k : Nat) : Nat :=
  (non_ol_masks strict_mode nPix gt old k).count true

/-- `argmax_area[k] = (mask_ids == k).sum()` (`selected_masks`, strict mode only). -/
def argmax_area (strict_mode : Bool) (nPix : Nat) (old : OldPred) (k : Nat) : Nat :=
  (List.range nPix).countP (fun p => decide (mask_ids strict_mode old p = k))

/-- The keep predicate of lines 515-518: `(new_area > 0) & (new_area >
old_area * psd_overlap_threshold)`, plus `& (old_area > argmax_area *
psd_overlap_threshold)` in strict mode. -/
def psd_keep (psd_overlap_threshold : ℚ) (strict_mode : Bool) (nPix : Nat)
    (gt : Target) (old : OldPred) (k : Nat) : Bool :=
  if strict_mode then
    decide (0 < new_area strict_mode nPix gt old k) &&
      decide ((old_area strict_mode old k : ℚ) * psd_overlap_threshold
        < (new_area strict_mode nPix gt old k : ℚ)) &&
      decide ((argmax_area strict_mode nPix old k : ℚ) * psd_overlap_threshold
        < (old_area strict_mode old k : ℚ))
  else
    decide (0 < new_area strict_mode nPix gt old k) &&
      decide ((old_area strict_mode old k : ℚ) * psd_overlap_threshold
        < (new_area strict_mode nPix gt old k : ℚ))

/-- The kept prediction indices (`keep` as an index list over the prediction
dimension). -/
def kept_indices (psd_overlap_threshold : ℚ) (strict_mode : Bool) (nPix : Nat)
    (gt : Target) (old : OldPred) : List Nat :=
  (List.range (old_labels strict_mode old).length).filter
    (psd_keep psd_overlap_threshold strict_mode nPix gt old)

/-- Modelled from detectron2 `BitMasks.get_bounding_boxes` (an external
collaborator of the repository): per mask, `[x.min, y.min, x.max + 1, y.max + 1]`
over the true pixels, zeros for an empty mask. -/
def mask_box_xyxy (width : Nat) (m : BinMask) : ℚ × ℚ × ℚ × ℚ :=
  let pts := (List.range m.length).filter (fun p => m.getD p false)
  let xs := pts.map (fun p => p % width)
  let ys := pts.map (fun p => p / width)
  match xs.min?, ys.min?, xs.max?, ys.max? with
  | some x0, some y0, some x1, some y1 => ((x0 : ℚ), (y0 : ℚ), (x1 : ℚ) + 1, (y1 : ℚ) + 1)
  | _, _, _, _ => (0, 0, 0, 0)

/-- Modelled from the spec: `box_ops.box_xyxy_to_cxcywh`
(`mask2former/utils/box_ops.py`, a repository module absent from src/) —
"boxes are converted from corner format to normalized center-size format". -/
def box_xyxy_to_cxcywh (b : ℚ × ℚ × ℚ × ℚ) : Box :=
  ((b.1 + b.2.2.1) / 2, (b.2.1 + b.2.2.2) / 2, b.2.2.1 - b.1, b.2.2.2 - b.2.1)

/-- Division by `image_size_xyxy = [w, h, w, h]`. -/
def normBox (imgW imgH : ℚ) (b : Box) : Box :=
  (b.1 / imgW, b.2.1 / imgH, b.2.2.1 / imgW, b.2.2.2 / imgH)

/-- The box emitted for one pseudo mask:
`box_xyxy_to_cxcywh(mask.get_bounding_boxes()) / image_size_xyxy`. -/
def psd_box (width : Nat) (imgW imgH : ℚ) (m : BinMask) : Box :=
  normBox imgW imgH (box_xyxy_to_cxcywh (mask_box_xyxy width m))

/-- `torch.unique`: sorted distinct values. -/
def unique_sorted (l : List Nat) : List Nat :=
  List.insertionSort (· ≤ ·) l.dedup

/-- Per-class mask fusion of the `combine_psdlabel` branch:
`select_masks[labels == label].sum(dim=0).clamp(min=0, max=1)`. -/
def union_masks (nPix : Nat) (ms : List BinMask) : BinMask :=
  (List.range nPix).map (fun p => ms.any (fun m => m.getD p false))

/-- One image of `MaskFormer.generate_psd_targets`: score gate, early return on
an empty prediction stack, confidence-weighted per-pixel ownership, gt-region
subtraction, area/overlap keep, and either per-prediction emission or the
`combine_psdlabel` per-class union. -/
def generate_psd_target (psd_overlap_threshold : ℚ) (combine_psdlabel strict_mode : Bool)
    (nPix width : Nat) (imgW imgH : ℚ) (gt : Target) (old : OldPred) : Target :=
  if (old_masks strict_mode old).length = 0 then
    ⟨old_labels strict_mode old, (old_masks strict_mode old).map binarize,
      old_boxes strict_mode old⟩
  else
    let kept := kept_indices psd_overlap_threshold strict_mode nPix gt old
    let keptLabels := kept.map (fun k => (old_labels strict_mode old).getD k 0)
    let selectMasks := kept.map (non_ol_masks strict_mode nPix gt old)
    if combine_psdlabel then
      let uniqueLabels := unique_sorted keptLabels
      let fusedMasks := uniqueLabels.map (fun l =>
        union_masks nPix
          ((kept.filter (fun k => (old_labels strict_mode old).getD k 0 = l)).map
            (non_ol_masks strict_mode nPix gt old)))
      ⟨uniqueLabels, fusedMasks, fusedMasks.map (psd_box width imgW imgH)⟩
    else
      ⟨keptLabels, selectMasks, selectMasks.map (psd_box width imgW imgH)⟩

/-- The whole-batch `generate_psd_targets` loop over `zip(gt_targets, old_preds)`. -/
def generate_psd_targets (psd_overlap_threshold : ℚ) (combine_psdlabel strict_mode : Bool)
    (nPix width : Nat) (imgW imgH : ℚ) (gts : List Target) (olds : List OldPred) :
    List Target :=
  List.zipWith (generate_psd_target psd_overlap_threshold combine_psdlabel strict_mode
    nPix width imgW imgH) gts olds

/-! ## The psd-label inference branch of `MaskFormer.forward`
(src/mask2former/maskformer_model.py lines 374-396): the eval-mode pass of the
frozen old model that produces the `old_pred` dicts. -/

/-- The decoded prediction of one query at the point where the psd-label branch
filters: its sigmoid-argmax class label and score, mask raster, and box. -/
structure QueryPred where
  label : Nat
  score : ℚ
  mask : ProbMask
  box : Box
deriving Repr, DecidableEq

/-- `keep = labels.ne(n_cls) & (scores > self.psd_label_threshold)` (line 380). -/
def psd_label_keep (psd_label_threshold : ℚ) (n_cls : Nat) (q : QueryPred) : Bool :=
  decide (q.label ≠ n_cls) && decide (psd_label_threshold < q.score)

/-- The emitted `output_psd_label` dict (lines 389-392), restricted to the kept
queries. The subsequent descending-score `argsort` only permutes the kept
entries and the non-`combine_psdlabel` softmax rescoring replaces scores by
other nonnegative values without changing `keep` (which is decided first) or
the argmax labels; membership-level properties are unaffected, so both are
omitted here. -/
def psd_label_output (psd_label_threshold : ℚ) (n_cls : Nat) (preds : List QueryPred) :
    OldPred :=
  ⟨(preds.filter (psd_label_keep psd_label_threshold n_cls)).map QueryPred.label,
    (preds.filter (psd_label_keep psd_label_threshold n_cls)).map QueryPred.score,
    (preds.filter (psd_label_keep psd_label_threshold n_cls)).map QueryPred.mask,
    (preds.filter (psd_label_keep psd_label_threshold n_cls)).map QueryPred.box⟩

end SimCIS

namespace SimCIS

/-! ## Theorems -/

/-- Helper: `remove_fake_query` always keeps exactly the first
`min (length v) 100` query slots. -/
theorem remove_fake_query_eq_take {α : Type} (v : List α) :
    remove_fake_query v = v.take 100 := by
  unfold remove_fake_query
  by_cases h : (100 : Int) < v.length
  · simp only [show (0:Int) < (v.length : Int) - 100 ↔ (100:Int) < v.length by omega, h,
      if_pos]
    congr 1
    omega
  · have hle : v.length ≤ 100 := by omega
    simp only [show ¬((0:Int) < (v.length : Int) - 100) by omega, if_neg, not_false_iff]
    rw [List.take_of_length_le hle]

/-- C8 (counterexample): with `vq_number = 3` and a 99-slot prediction tensor,
`_remove_fake_query` removes nothing, whereas truncating the last `vq_number`
slots would leave 96 slots; so the adapter does not truncate the last
`vq_number` slots for all second-dimension sizes. -/
theorem remove_fake_query_not_vq_truncation :
    remove_fake_query (List.range 99) = List.range 99 ∧
      List.range 99 ≠ (List.range 99).take (99 - 3) := by
  constructor
  · rw [remove_fake_query_eq_take]
    decide
  · decide

/-- C8 (amended): `_remove_fake_query` keeps exactly the first 100 query slots
of every prediction tensor (removing the trailing `shape[1] - 100` slots when
more than 100 are present, and leaving shorter tensors unchanged); this
coincides with truncating the last `vq_number` slots exactly when the tensor
has `100 + vq_number` query slots. -/
theorem remove_fake_query_take_100 {α : Type} (v : List α) (vq_number : Nat) :
    remove_fake_query v = v.take 100 ∧
      (v.length = 100 + vq_number →
        remove_fake_query v = v.take (v.length - vq_number)) := by
  refine ⟨remove_fake_query_eq_take v, fun h => ?_⟩
  rw [remove_fake_query_eq_take, h]
  congr 1
  omega

/-- Witness for the amended C8 theorem at a concrete 103-slot tensor with
`vq_number = 3`. -/
theorem remove_fake_query_take_100_witness :
    (List.range 103).length = 100 + 3 ∧
      remove_fake_query (List.range 103) = (List.range 103).take 100 := by
  refine ⟨by decide, ?_⟩
  exact (remove_fake_query_take_100 (List.range 103) 3).1

/-- C6: the loss normalizer `num_masks` — the total target count summed across
workers, divided by the world size, clamped at a minimum of 1 — is at least 1
for every input, including a zero-target batch on every worker. -/
theorem num_masks_normalizer_ge_one (perWorker : List (List Target)) (world_size : Nat) :
    1 ≤ num_masks_normalizer perWorker world_size :=
  le_max_right _ _

/-- Helper: a bounded-deque append holds exactly `min (n + 1) maxlen` elements. -/
theorem length_dequeAppend {α : Type} (maxlen : Nat) (d : List α) (x : α) :
    (dequeAppend maxlen d x).length = min (d.length + 1) maxlen := by
  simp only [dequeAppend, List.length_drop, List.length_append, List.length_cons,
    List.length_nil]
  omega

/-- Helper: extending a deque that is within capacity stays within capacity. -/
theorem length_dequeExtend_le {α : Type} (cap : Nat) (d : List α) (xs : List α)
    (h : d.length ≤ cap) : (dequeExtend cap d xs).length ≤ cap := by
  induction xs generalizing d with
  | nil => exact h
  | cons y ys ih =>
      simp only [dequeExtend, List.foldl_cons] at *
      exact ih (dequeAppend cap d y) (by rw [length_dequeAppend]; omega)

/-- Helper: a nonempty-capacity deque append retains the newest element last. -/
theorem dequeAppend_getLast {α : Type} (maxlen : Nat) (d : List α) (x : α)
    (h : 0 < maxlen) : (dequeAppend maxlen d x).getLast? = some x := by
  have hk : (d ++ [x]).length - maxlen ≤ d.length := by
    simp only [List.length_append, List.length_cons, List.length_nil]
    omega
  simp only [dequeAppend]
  rw [List.drop_append_of_le_length hk, List.getLast?_append_cons]
  rfl

/-- The invariant carried by the `collect` of a worker during the store block:
every entry was created with capacity `cap` and respects it. -/
def collectInv (cap : Nat) (c : Collect) : Prop :=
  ∀ e ∈ c, e.maxlen = cap ∧ e.buffer.length ≤ cap

/-- Helper: `insertFeature` preserves the capacity invariant at `lib_size / world_size`. -/
theorem collectInv_insertFeature (lib_size world_size : Nat) (c : Collect)
    (cls : Nat) (f : Feat) (h : collectInv (lib_size / world_size) c) :
    collectInv (lib_size / world_size) (insertFeature lib_size world_size c cls f) := by
  intro e he
  unfold insertFeature at he
  split at he
  · obtain ⟨e0, he0, rfl⟩ := List.mem_map.mp he
    obtain ⟨h1, h2⟩ := h e0 he0
    split
    · refine ⟨h1, ?_⟩
      simp only [length_dequeAppend, h1]
      omega
    · exact ⟨h1, h2⟩
  · rcases List.mem_append.mp he with hin | hnew
    · exact h e hin
    · rcases List.mem_singleton.mp hnew with rfl
      refine ⟨rfl, ?_⟩
      simp only [length_dequeAppend, List.length_nil]
      omega

/-- Helper: the whole per-worker store pass keeps every buffer within
`lib_size / world_size`. -/
theorem collectInv_writeWorkerBuffer (lib_size world_size : Nat)
    (inserts : List (Nat × Feat)) :
    collectInv (lib_size / world_size) (writeWorkerBuffer lib_size world_size inserts) := by
  have main : ∀ (l : List (Nat × Feat)) (c : Collect), collectInv (lib_size / world_size) c →
      collectInv (lib_size / world_size)
        (l.foldl (fun c i => insertFeature lib_size world_size c i.1 i.2) c) := by
    intro l
    induction l with
    | nil => intro c hc; exact hc
    | cons p ps ih =>
        intro c hc
        exact ih _ (collectInv_insertFeature lib_size world_size c p.1 p.2 hc)
  exact main inserts [] (fun e he => absurd he (List.not_mem_nil e))

/-- Helper: `extendEntry` preserves the capacity invariant at `lib_size`. -/
theorem collectInv_extendEntry (lib_size : Nat) (acc : Collect) (cls : Nat)
    (xs : List Feat) (h : collectInv lib_size acc) :
    collectInv lib_size (extendEntry lib_size acc cls xs) := by
  intro e he
  unfold extendEntry at he
  split at he
  · obtain ⟨e0, he0, rfl⟩ := List.mem_map.mp he
    obtain ⟨h1, h2⟩ := h e0 he0
    split
    · refine ⟨h1, ?_⟩
      simp only [h1]
      exact length_dequeExtend_le _ _ _ h2
    · exact ⟨h1, h2⟩
  · rcases List.mem_append.mp he with hin | hnew
    · exact h e hin
    · rcases List.mem_singleton.mp hnew with rfl
      exact ⟨rfl, length_dequeExtend_le _ _ _ (Nat.zero_le _)⟩

/-- Helper: the rank-0 merge keeps every per-class buffer within `lib_size`. -/
theorem collectInv_mergeCollect (lib_size : Nat) (gathered : List Collect) :
    collectInv lib_size (mergeCollect lib_size gathered) := by
  have inner : ∀ (c : Collect) (acc : Collect), collectInv lib_size acc →
      collectInv lib_size
        (c.foldl (fun acc2 e => extendEntry lib_size acc2 e.cls e.buffer) acc) := by
    intro c
    induction c with
    | nil => intro acc hacc; exact hacc
    | cons e es ih =>
        intro acc hacc
        exact ih _ (collectInv_extendEntry lib_size acc e.cls e.buffer hacc)
  have outer : ∀ (gs : List Collect) (acc : Collect), collectInv lib_size acc →
      collectInv lib_size
        (gs.foldl (fun acc c =>
          c.foldl (fun acc2 e => extendEntry lib_size acc2 e.cls e.buffer) acc) acc) := by
    intro gs
    induction gs with
    | nil => intro acc hacc; exact hacc
    | cons g gsr ih =>
        intro acc hacc
        exact ih _ (inner g acc hacc)
  exact outer gathered [] (fun e he => absurd he (List.not_mem_nil e))

/-- C5 (counterexample): with `lib_size = 4` and `world_size = 2`, two workers
whose buffers each hold 2 features of class 0 merge — through the
`deque(maxlen=LIB_SIZE)` of `Trainer.after_train` — into a class-0 buffer of
length 4, which exceeds `lib_size / world_size = 2`; so the persisted merged
mapping is not bounded per class by `lib_size / world_size`. -/
theorem merged_lib_exceeds_per_worker_bound :
    ((mergeCollect 4 [writeWorkerBuffer 4 2 [(0, [1]), (0, [2])],
        writeWorkerBuffer 4 2 [(0, [1]), (0, [2])]]).map
          (fun e => e.buffer.length)) = [4] ∧ ¬ (4 ≤ 4 / 2) := by
  constructor
  · rfl
  · decide

/-- C5 (amended): every per-class buffer written by the store pass of a worker holds
at most `lib_size / world_size` features; the merged mapping persisted by
`Trainer.after_train` (and loaded by the next task) has per-class buffer
lengths each at most `lib_size` — the capacity re-applied after the
cross-worker merge is `lib_size`, not `lib_size / world_size` — with the newest
insertion always retained at the tail of a nonzero-capacity deque. -/
theorem lib_capacity_bounds (lib_size world_size : Nat)
    (inserts : List (Nat × Feat)) (gathered : List Collect) :
    (∀ e ∈ writeWorkerBuffer lib_size world_size inserts,
        e.buffer.length ≤ lib_size / world_size) ∧
      (∀ e ∈ mergeCollect lib_size gathered, e.buffer.length ≤ lib_size) ∧
      (∀ (m : Nat) (d : List Feat) (x : Feat), 0 < m →
        (dequeAppend m d x).getLast? = some x) := by
  refine ⟨fun e he => (collectInv_writeWorkerBuffer lib_size world_size inserts e he).2,
    fun e he => (collectInv_mergeCollect lib_size gathered e he).2,
    fun m d x hm => dequeAppend_getLast m d x hm⟩

/-- Helper: `getD` of a `zipWith` at an in-range index, default-independent. -/
theorem getD_zipWith_of_lt {α β γ : Type} (f : α → β → γ) (l1 : List α) (l2 : List β)
    (i : Nat) (d1 : α) (d2 : β) (dg : γ) (h1 : i < l1.length) (h2 : i < l2.length) :
    (List.zipWith f l1 l2).getD i dg = f (l1.getD i d1) (l2.getD i d2) := by
  have hz : i < (List.zipWith f l1 l2).length := by
    rw [List.length_zipWith]; omega
  rw [List.getD_eq_getElem _ _ hz, List.getD_eq_getElem _ _ h1, List.getD_eq_getElem _ _ h2]
  exact List.getElem_zipWith

/-- Helper: `getD` of a `map` at an in-range index, default-independent. -/
theorem getD_map_of_lt {α β : Type} (f : α → β) (l : List α) (i : Nat) (d1 : β) (d2 : α)
    (h : i < l.length) : (l.map f).getD i d1 = f (l.getD i d2) := by
  have h2 : i < (l.map f).length := by simpa using h
  rw [List.getD_eq_getElem _ _ h2, List.getD_eq_getElem _ _ h]
  exact List.getElem_map f

/-- Helper: `getD` through a map over `List.range`. -/
theorem getD_range_map {α : Type} (f : Nat → α) (n p : Nat) (d : α) :
    ((List.range n).map f).getD p d = if p < n then f p else d := by
  by_cases h : p < n
  · have h2 : p < ((List.range n).map f).length := by simpa using h
    rw [List.getD_eq_getElem _ _ h2, if_pos h]
    simp
  · rw [if_neg h, List.getD_eq_getElem?_getD,
      List.getElem?_eq_none (by simpa using Nat.le_of_not_lt h)]
    rfl

/-- Helper: `getD` past the left part of an append. -/
theorem getD_append_left_length {α : Type} (l1 l2 : List α) (j : Nat) (d : α) :
    (l1 ++ l2).getD (l1.length + j) d = l2.getD j d := by
  induction l1 with
  | nil => simp
  | cons x xs ih =>
      have hidx : (x :: xs).length + j = xs.length + j + 1 := by
        simp only [List.length_cons]
        omega
      rw [List.cons_append, hidx, List.getD_cons_succ, ih]

/-- Helper: `getD` past the end of a list yields the default. -/
theorem getD_of_length_le {α : Type} (l : List α) (i : Nat) (d : α)
    (h : l.length ≤ i) : l.getD i d = d := by
  rw [List.getD_eq_getElem?_getD, List.getElem?_eq_none h]
  rfl

/-- Witness for the amended C5 theorem at the concrete two-worker merge. -/
theorem lib_capacity_bounds_witness :
    (⟨0, 2, [[1], [2]]⟩ : LibEntry) ∈ writeWorkerBuffer 4 2 [(0, [1]), (0, [2])] ∧
      (⟨0, 4, [[1], [2], [1], [2]]⟩ : LibEntry) ∈
        mergeCollect 4 [writeWorkerBuffer 4 2 [(0, [1]), (0, [2])],
          writeWorkerBuffer 4 2 [(0, [1]), (0, [2])]] ∧
      ([[1], [2]] : List Feat).length ≤ 4 / 2 ∧
      ([[1], [2], [1], [2]] : List Feat).length ≤ 4 := by
  have h1 : (⟨0, 2, [[1], [2]]⟩ : LibEntry) ∈ writeWorkerBuffer 4 2 [(0, [1]), (0, [2])] := by
    decide
  have h2 : (⟨0, 4, [[1], [2], [1], [2]]⟩ : LibEntry) ∈
      mergeCollect 4 [writeWorkerBuffer 4 2 [(0, [1]), (0, [2])],
        writeWorkerBuffer 4 2 [(0, [1]), (0, [2])]] := by
    decide
  exact ⟨h1, h2,
    (lib_capacity_bounds 4 2 [(0, [1]), (0, [2])]
      [writeWorkerBuffer 4 2 [(0, [1]), (0, [2])],
        writeWorkerBuffer 4 2 [(0, [1]), (0, [2])]]).1 _ h1,
    (lib_capacity_bounds 4 2 [(0, [1]), (0, [2])]
      [writeWorkerBuffer 4 2 [(0, [1]), (0, [2])],
        writeWorkerBuffer 4 2 [(0, [1]), (0, [2])]]).2.1 _ h2⟩

/-- Helper: element-wise description of the fused `complete_psd_targets` list. -/
theorem getD_complete_psd_targets (current_catagory_ids : List Nat)
    (targets psd : List Target) (i : Nat)
    (hlen : psd.length = targets.length) (hi : i < targets.length) :
    (complete_psd_targets current_catagory_ids targets (some psd)).getD i emptyTarget =
      if memory_part current_catagory_ids (targets.getD i emptyTarget) = true then
        targets.getD i emptyTarget
      else concatTarget (psd.getD i emptyTarget) (targets.getD i emptyTarget) := by
  rw [show complete_psd_targets current_catagory_ids targets (some psd) =
      List.zipWith
        (fun p t =>
          if memory_part current_catagory_ids t then ⟨t.labels, t.masks, t.boxes⟩
          else concatTarget p t) psd targets from rfl,
    getD_zipWith_of_lt _ psd targets i emptyTarget emptyTarget emptyTarget
      (by omega) hi]

/-- C3: the complete target used for matching and loss is, per image, the real
target alone exactly when the image carries the memory-image flag — the flag
holding precisely when some real label lies outside `current_catagory_ids` —
and the pseudo-then-real concatenation otherwise. -/
theorem complete_targets_memory_split (current_catagory_ids : List Nat)
    (targets psd : List Target) (i : Nat)
    (hlen : psd.length = targets.length) (hi : i < targets.length) :
    ((complete_psd_targets current_catagory_ids targets (some psd)).getD i emptyTarget =
        if memory_part current_catagory_ids (targets.getD i emptyTarget) = true then
          targets.getD i emptyTarget
        else concatTarget (psd.getD i emptyTarget) (targets.getD i emptyTarget)) ∧
      (memory_part current_catagory_ids (targets.getD i emptyTarget) = true ↔
        ∃ l ∈ (targets.getD i emptyTarget).labels, l ∉ current_catagory_ids) := by
  constructor
  · exact getD_complete_psd_targets current_catagory_ids targets psd i hlen hi
  · simp [memory_part]

/-- Witness for C3 at a batch of one memory image and one ordinary image. -/
theorem complete_targets_memory_split_witness :
    ([⟨[5], [], []⟩, ⟨[7], [], []⟩] : List Target).length =
        ([⟨[0], [], []⟩, ⟨[1], [], []⟩] : List Target).length ∧
      (1 : Nat) < ([⟨[0], [], []⟩, ⟨[1], [], []⟩] : List Target).length ∧
      ((complete_psd_targets [1] [⟨[0], [], []⟩, ⟨[1], [], []⟩]
          (some [⟨[5], [], []⟩, ⟨[7], [], []⟩])).getD 1 emptyTarget =
        if memory_part [1] (([⟨[0], [], []⟩, ⟨[1], [], []⟩] : List Target).getD 1 emptyTarget)
            = true then
          ([⟨[0], [], []⟩, ⟨[1], [], []⟩] : List Target).getD 1 emptyTarget
        else
          concatTarget (([⟨[5], [], []⟩, ⟨[7], [], []⟩] : List Target).getD 1 emptyTarget)
            (([⟨[0], [], []⟩, ⟨[1], [], []⟩] : List Target).getD 1 emptyTarget)) := by
  refine ⟨by decide, by decide, ?_⟩
  exact (complete_targets_memory_split [1] [⟨[0], [], []⟩, ⟨[1], [], []⟩]
    [⟨[5], [], []⟩, ⟨[7], [], []⟩] 1 (by decide) (by decide)).1

/-- Helper: the seed of the `max_indice` fold bounds the fold from below. -/
theorem le_foldl_max_indice (l : List Nat) (a : Int) :
    a ≤ l.foldl (fun acc b => max acc (b : Int)) a := by
  induction l generalizing a with
  | nil => exact le_refl a
  | cons x xs ih => exact le_trans (le_max_left a (x : Int)) (ih (max a (x : Int)))

/-- Helper: every member of the list bounds the `max_indice` fold from below. -/
theorem mem_le_foldl_max_indice (l : List Nat) :
    ∀ (a : Int) (x : Nat), x ∈ l → (x : Int) ≤ l.foldl (fun acc b => max acc (b : Int)) a := by
  induction l with
  | nil => exact fun a x hx => absurd hx (List.not_mem_nil x)
  | cons y ys ih =>
      intro a x hx
      rcases List.mem_cons.mp hx with rfl | hmem
      · exact le_trans (le_max_right a (x : Int)) (le_foldl_max_indice ys _)
      · exact ih _ x hmem

/-- Helper: `max_indice` dominates every matched target index. -/
theorem le_max_indice (l : List Nat) (x : Nat) (hx : x ∈ l) : (x : Int) ≤ max_indice l :=
  mem_le_foldl_max_indice l (-1) x hx

/-- Helper: `max_indice` is at least `-1`. -/
theorem neg_one_le_max_indice (l : List Nat) : -1 ≤ max_indice l :=
  le_foldl_max_indice l (-1)

/-- C4: with synthetic labels supplied, the matching adapter returns, per image,
a match extended by exactly `vq_number` entries on the prediction side (slots
`100 ..`) and on the target side, whose appended target indices run
consecutively from `max_indice + 1` — hence exceed every pre-existing target
index of that image — and a target whose label list is extended by the
sampled synthetic labels of that image. -/
theorem modify_indices_adds_vq_entries (vq_number : Nat)
    (indices : List (List Nat × List Nat)) (targets : List Target)
    (fqls : List (List Nat)) (i : Nat)
    (h1 : fqls.length = targets.length) (h2 : targets.length = indices.length)
    (hi : i < indices.length) :
    ((modify_indices_targets_for_fake_query vq_number indices targets
          (some fqls)).1.getD i ([], [])).1.length
        = (indices.getD i ([], [])).1.length + vq_number ∧
      ((modify_indices_targets_for_fake_query vq_number indices targets
            (some fqls)).1.getD i ([], [])).2.length
          = (indices.getD i ([], [])).2.length + vq_number ∧
      (∀ j, j < vq_number →
        ((modify_indices_targets_for_fake_query vq_number indices targets
              (some fqls)).1.getD i ([], [])).2.getD
            ((indices.getD i ([], [])).2.length + j) 0
          = (max_indice (indices.getD i ([], [])).2 + 1).toNat + j) ∧
      (∀ old ∈ (indices.getD i ([], [])).2, ∀ j, j < vq_number →
        old < ((modify_indices_targets_for_fake_query vq_number indices targets
              (some fqls)).1.getD i ([], [])).2.getD
            ((indices.getD i ([], [])).2.length + j) 0) ∧
      ((modify_indices_targets_for_fake_query vq_number indices targets
            (some fqls)).2.getD i emptyTarget).labels
        = (targets.getD i emptyTarget).labels ++ fqls.getD i [] := by
  have hfst : (modify_indices_targets_for_fake_query vq_number indices targets
      (some fqls)).1 = indices.map (modify_matching vq_number) := rfl
  have hmapD : (indices.map (modify_matching vq_number)).getD i ([], [])
      = modify_matching vq_number (indices.getD i ([], [])) :=
    getD_map_of_lt _ indices i ([], []) ([], []) hi
  have happ : ∀ j, j < vq_number →
      (modify_matching vq_number (indices.getD i ([], []))).2.getD
          ((indices.getD i ([], [])).2.length + j) 0
        = (max_indice (indices.getD i ([], [])).2 + 1).toNat + j := by
    intro j hj
    set m := indices.getD i ([], []) with hm
    have hstep : (modify_matching vq_number m).2.getD (m.2.length + j) 0
        = ((List.range vq_number).map
            (fun (k : Nat) => (max_indice m.2 + (k : Int) + 1).toNat)).getD j 0 :=
      getD_append_left_length m.2 _ j 0
    rw [hstep, getD_range_map, if_pos hj]
    have hneg := neg_one_le_max_indice m.2
    omega
  refine ⟨?_, ?_, ?_, ?_, ?_⟩
  · rw [hfst, hmapD]
    simp [modify_matching]
  · rw [hfst, hmapD]
    simp [modify_matching]
  · intro j hj
    rw [hfst, hmapD]
    exact happ j hj
  · intro old hold j hj
    rw [hfst, hmapD, happ j hj]
    have hle := le_max_indice (indices.getD i ([], [])).2 old hold
    have hneg := neg_one_le_max_indice (indices.getD i ([], [])).2
    omega
  · have hsnd : (modify_indices_targets_for_fake_query vq_number indices targets
        (some fqls)).2 = List.zipWith (fun t fql => ⟨t.labels ++ fql, t.masks, t.boxes⟩)
          targets fqls := rfl
    rw [hsnd, getD_zipWith_of_lt _ targets fqls i emptyTarget [] emptyTarget
      (by omega) (by omega)]

/-- Witness for C4 at a concrete one-image batch with `vq_number = 2`. -/
theorem modify_indices_adds_vq_entries_witness :
    ([[7, 8]] : List (List Nat)).length = ([⟨[5, 6], [], []⟩] : List Target).length ∧
      ([⟨[5, 6], [], []⟩] : List Target).length =
        ([([0, 1], [4, 2])] : List (List Nat × List Nat)).length ∧
      (0 : Nat) < ([([0, 1], [4, 2])] : List (List Nat × List Nat)).length ∧
      ((modify_indices_targets_for_fake_query 2 [([0, 1], [4, 2])] [⟨[5, 6], [], []⟩]
            (some [[7, 8]])).1.getD 0 ([], [])).2.length
          = (([([0, 1], [4, 2])] : List (List Nat × List Nat)).getD 0 ([], [])).2.length + 2 ∧
      ((modify_indices_targets_for_fake_query 2 [([0, 1], [4, 2])] [⟨[5, 6], [], []⟩]
            (some [[7, 8]])).2.getD 0 emptyTarget).labels
        = (([⟨[5, 6], [], []⟩] : List Target).getD 0 emptyTarget).labels ++
            ([[7, 8]] : List (List Nat)).getD 0 [] := by
  refine ⟨by decide, by decide, by decide, ?_, ?_⟩
  · exact (modify_indices_adds_vq_entries 2 [([0, 1], [4, 2])] [⟨[5, 6], [], []⟩]
      [[7, 8]] 0 (by decide) (by decide) (by decide)).2.1
  · exact (modify_indices_adds_vq_entries 2 [([0, 1], [4, 2])] [⟨[5, 6], [], []⟩]
      [[7, 8]] 0 (by decide) (by decide) (by decide)).2.2.2.2

/-- Helper: the `kd` invocations of the primary loop, one per requested `kd`,
all at temperature `kd_temperature2`. -/
theorem primaryCalls_filter_kd (losses : List LossKind) (t2 : ℚ) :
    (primaryCalls losses true t2).filter (fun c => decide (c.kind = LossKind.kd))
      = List.replicate (losses.count LossKind.kd) ⟨.kd, .primary, some t2⟩ := by
  induction losses with
  | nil => rfl
  | cons l ls ih =>
      cases l <;>
        simp [primaryCalls, List.filterMap_cons, List.filter_cons, List.count_cons, ih,
          List.replicate_succ] <;>
        exact ih

/-- Helper: the auxiliary-layer loop never invokes `kd`. -/
theorem auxCalls_filter_kd (losses : List LossKind) (aux_count : Nat) :
    (auxCalls losses aux_count).filter (fun c => decide (c.kind = LossKind.kd)) = [] := by
  rw [List.filter_eq_nil_iff]
  intro c hc
  simp only [auxCalls, List.mem_flatMap, List.mem_filterMap] at hc
  obtain ⟨i, _, l, _, hl⟩ := hc
  cases l with
  | kd => exact absurd hl (by simp)
  | labels => simp [← Option.some_inj.mp hl]
  | masks => simp [← Option.some_inj.mp hl]
  | points => simp [← Option.some_inj.mp hl]

/-- Helper: the `kd` invocations of the interm block, one per requested `kd`,
all at temperature `kd_temperature`. -/
theorem intermCalls_filter_kd (losses : List LossKind) (t : ℚ) :
    (intermCalls losses true t).filter (fun c => decide (c.kind = LossKind.kd))
      = List.replicate (losses.count LossKind.kd) ⟨.kd, .interm, some t⟩ := by
  induction losses with
  | nil => rfl
  | cons l ls ih =>
      cases l <;>
        simp [intermCalls, List.filter_cons, List.count_cons, ih, List.replicate_succ] <;>
        simpa [intermCalls] using ih

/-- C7: when `kd` is among the requested losses (once), `kd_decoder` is on and
an interm output is present, knowledge distillation is invoked exactly twice
per step — first on the primary scope at temperature `kd_temperature2`, then on
the interm scope at temperature `kd_temperature` — and on no auxiliary
per-layer scope, whatever the number of auxiliary outputs. -/
theorem kd_loss_schedule (losses : List LossKind) (aux_count : Nat)
    (kd_temperature kd_temperature2 : ℚ) (h1 : losses.count LossKind.kd = 1) :
    (lossSchedule losses aux_count true true kd_temperature kd_temperature2).filter
        (fun c => decide (c.kind = LossKind.kd))
      = [⟨.kd, .primary, some kd_temperature2⟩, ⟨.kd, .interm, some kd_temperature⟩] := by
  unfold lossSchedule
  rw [List.filter_append, List.filter_append, primaryCalls_filter_kd,
    auxCalls_filter_kd, intermCalls_filter_kd, h1]
  rfl

/-- Witness for C7 at the configured loss list and eight auxiliary layers. -/
theorem kd_loss_schedule_witness :
    ([LossKind.labels, .masks, .points, .kd]).count LossKind.kd = 1 ∧
      (lossSchedule [LossKind.labels, .masks, .points, .kd] 8 true true (1/10) (1/10)).filter
          (fun c => decide (c.kind = LossKind.kd))
        = [⟨.kd, .primary, some (1/10)⟩, ⟨.kd, .interm, some (1/10)⟩] :=
  ⟨by decide, kd_loss_schedule [LossKind.labels, .masks, .points, .kd] 8 (1/10) (1/10)
    (by decide)⟩

/-- C10: the feature-cache-writing matcher call in `MaskFormer.forward` fuses
pseudo and real targets for every image — the memory-image flag included — and
passes the prediction slots whole, while the loss-path matcher call exempts
memory images and keeps only the first 100 (real) query slots; on a
memory-flagged image with nonempty pseudo labels the two paths hand the
matcher different targets. -/
theorem cache_match_uses_full_fusion_and_slots {α : Type} (current_catagory_ids : List Nat)
    (outputs : List α) (targets psd : List Target) (i : Nat)
    (hlen : psd.length = targets.length) (hi : i < targets.length)
    (hmem : memory_part current_catagory_ids (targets.getD i emptyTarget) = true)
    (hp : (psd.getD i emptyTarget).labels ≠ []) :
    (cacheMatcherCall outputs targets (some psd)).1 = outputs ∧
      (lossMatcherCall current_catagory_ids outputs targets (some psd)).1 =
        outputs.take 100 ∧
      (cacheMatcherCall outputs targets (some psd)).2.getD i emptyTarget
        = concatTarget (psd.getD i emptyTarget) (targets.getD i emptyTarget) ∧
      (lossMatcherCall current_catagory_ids outputs targets (some psd)).2.getD i emptyTarget
        = targets.getD i emptyTarget ∧
      (cacheMatcherCall outputs targets (some psd)).2.getD i emptyTarget
        ≠ (lossMatcherCall current_catagory_ids outputs targets (some psd)).2.getD
            i emptyTarget := by
  have hcache : (cacheMatcherCall outputs targets (some psd)).2.getD i emptyTarget
      = concatTarget (psd.getD i emptyTarget) (targets.getD i emptyTarget) := by
    show (List.zipWith concatTarget psd targets).getD i emptyTarget = _
    rw [getD_zipWith_of_lt _ psd targets i emptyTarget emptyTarget emptyTarget (by omega) hi]
  have hloss : (lossMatcherCall current_catagory_ids outputs targets (some psd)).2.getD
      i emptyTarget = targets.getD i emptyTarget := by
    show (complete_psd_targets current_catagory_ids targets (some psd)).getD i emptyTarget = _
    rw [getD_complete_psd_targets current_catagory_ids targets psd i hlen hi, if_pos hmem]
  refine ⟨rfl, remove_fake_query_eq_take outputs, hcache, hloss, ?_⟩
  rw [hcache, hloss]
  intro hcontra
  have : (concatTarget (psd.getD i emptyTarget) (targets.getD i emptyTarget)).labels.length
      = (targets.getD i emptyTarget).labels.length := by rw [hcontra]
  simp only [concatTarget, List.length_append] at this
  exact hp (List.length_eq_zero.mp (by omega))

/-- Witness for C10 at a concrete memory-flagged image. -/
theorem cache_match_uses_full_fusion_and_slots_witness :
    ([⟨[5], [], []⟩] : List Target).length = ([⟨[0], [], []⟩] : List Target).length ∧
      (0 : Nat) < ([⟨[0], [], []⟩] : List Target).length ∧
      memory_part [1] (([⟨[0], [], []⟩] : List Target).getD 0 emptyTarget) = true ∧
      (([⟨[5], [], []⟩] : List Target).getD 0 emptyTarget).labels ≠ [] ∧
      (cacheMatcherCall ([3, 4] : List Nat) [⟨[0], [], []⟩] (some [⟨[5], [], []⟩])).2.getD
          0 emptyTarget
        ≠ (lossMatcherCall [1] ([3, 4] : List Nat) [⟨[0], [], []⟩]
            (some [⟨[5], [], []⟩])).2.getD 0 emptyTarget := by
  refine ⟨by decide, by decide, by decide, by decide, ?_⟩
  exact (cache_match_uses_full_fusion_and_slots [1] ([3, 4] : List Nat) [⟨[0], [], []⟩]
    [⟨[5], [], []⟩] 0 (by decide) (by decide) (by decide) (by decide)).2.2.2.2

/-- Helper: every true pixel of a `non_ol_masks` raster lies outside the
ground-truth region (the gt subtraction of line 510). -/
theorem gt_region_eq_false_of_non_ol (strict_mode : Bool) (nPix : Nat) (gt : Target)
    (old : OldPred) (k p : Nat)
    (h : (non_ol_masks strict_mode nPix gt old k).getD p false = true) :
    gt_region gt.masks p = false := by
  rw [non_ol_masks, getD_range_map] at h
  by_cases hp : p < nPix
  · rw [if_pos hp] at h
    simp only [Bool.and_eq_true, Bool.not_eq_true'] at h
    exact h.2
  · rw [if_neg hp] at h
    exact absurd h (by simp)

/-- Helper: a true pixel of a per-class union comes from one of its members. -/
theorem exists_mem_of_union_masks (nPix : Nat) (ms : List BinMask) (p : Nat)
    (h : (union_masks nPix ms).getD p false = true) :
    ∃ mm ∈ ms, mm.getD p false = true := by
  rw [union_masks, getD_range_map] at h
  by_cases hp : p < nPix
  · rw [if_pos hp] at h
    simpa using h
  · rw [if_neg hp] at h
    exact absurd h (by simp)

/-- Helper: the masks field of the generated pseudo target of one image, by branch. -/
theorem generate_psd_target_masks (psd_overlap_threshold : ℚ)
    (combine_psdlabel strict_mode : Bool) (nPix width : Nat) (imgW imgH : ℚ)
    (gt : Target) (old : OldPred) :
    (generate_psd_target psd_overlap_threshold combine_psdlabel strict_mode nPix width
        imgW imgH gt old).masks
      = if (old_masks strict_mode old).length = 0 then
          (old_masks strict_mode old).map binarize
        else if combine_psdlabel then
          (unique_sorted ((kept_indices psd_overlap_threshold strict_mode nPix gt old).map
            (fun k => (old_labels strict_mode old).getD k 0))).map (fun l =>
              union_masks nPix
                (((kept_indices psd_overlap_threshold strict_mode nPix gt old).filter
                  (fun k => (old_labels strict_mode old).getD k 0 = l)).map
                    (non_ol_masks strict_mode nPix gt old)))
        else (kept_indices psd_overlap_threshold strict_mode nPix gt old).map
          (non_ol_masks strict_mode nPix gt old) := by
  unfold generate_psd_target
  by_cases h0 : (old_masks strict_mode old).length = 0
  · simp [h0]
  · cases combine_psdlabel <;> simp [h0]

/-- Helper: per-image disjointness of every emitted pseudo mask from the
ground-truth union, in both emission modes. -/
theorem psd_target_masks_disjoint (psd_overlap_threshold : ℚ)
    (combine_psdlabel strict_mode : Bool) (nPix width : Nat) (imgW imgH : ℚ)
    (gt : Target) (old : OldPred) :
    ∀ m ∈ (generate_psd_target psd_overlap_threshold combine_psdlabel strict_mode nPix
        width imgW imgH gt old).masks,
      ∀ p : Nat, m.getD p false = true → gt_region gt.masks p = false := by
  intro m hm p hp
  rw [generate_psd_target_masks] at hm
  by_cases h0 : (old_masks strict_mode old).length = 0
  · rw [if_pos h0, List.length_eq_zero.mp h0] at hm
    exact absurd hm (by simp)
  · rw [if_neg h0] at hm
    cases combine_psdlabel with
    | true =>
        rw [if_pos rfl] at hm
        obtain ⟨l, -, rfl⟩ := List.mem_map.mp hm
        obtain ⟨mm, hmm, hmmp⟩ := exists_mem_of_union_masks nPix _ p hp
        obtain ⟨k, -, rfl⟩ := List.mem_map.mp hmm
        exact gt_region_eq_false_of_non_ol strict_mode nPix gt old k p hmmp
    | false =>
        rw [if_neg (by simp)] at hm
        obtain ⟨k, -, rfl⟩ := List.mem_map.mp hm
        exact gt_region_eq_false_of_non_ol strict_mode nPix gt old k p hp

/-- C1: every mask of every emitted pseudo target is pixel-wise disjoint from
the union of the ground-truth masks of the same image (their pixel-wise AND is
all-zero), in the per-prediction mode and in the `combine_psdlabel`
per-class-union mode alike. -/
theorem psd_masks_disjoint_gt_region (psd_overlap_threshold : ℚ)
    (combine_psdlabel strict_mode : Bool) (nPix width : Nat) (imgW imgH : ℚ)
    (gts : List Target) (olds : List OldPred) (i : Nat) :
    ∀ m ∈ ((generate_psd_targets psd_overlap_threshold combine_psdlabel strict_mode nPix
        width imgW imgH gts olds).getD i emptyTarget).masks,
      ∀ p : Nat, m.getD p false = true → gt_region (gts.getD i emptyTarget).masks p = false := by
  intro m hm p hp
  by_cases hi : i < (generate_psd_targets psd_overlap_threshold combine_psdlabel strict_mode
      nPix width imgW imgH gts olds).length
  · have hlen : i < gts.length ∧ i < olds.length := by
      rw [generate_psd_targets, List.length_zipWith] at hi
      omega
    rw [generate_psd_targets,
      getD_zipWith_of_lt _ gts olds i emptyTarget ⟨[], [], [], []⟩ emptyTarget
        hlen.1 hlen.2] at hm
    exact psd_target_masks_disjoint psd_overlap_threshold combine_psdlabel strict_mode nPix
      width imgW imgH (gts.getD i emptyTarget) (olds.getD i ⟨[], [], [], []⟩) m hm p hp
  · rw [getD_of_length_le _ _ _ (Nat.le_of_not_lt hi)] at hm
    exact absurd hm (by simp [emptyTarget])

/-- Witness for C1 at a concrete one-image batch whose single prediction
survives the filter with a gt-overlapping pixel subtracted. -/
theorem psd_masks_disjoint_gt_region_witness :
    ([false, true, false, false] : BinMask) ∈
        ((generate_psd_targets (4/10) false false 4 2 2 2
          [⟨[0], [[true, false, false, false]], [(0, 0, 0, 0)]⟩]
          [⟨[3], [1], [[1, 1, 0, 0]], [(0, 0, 1, 1)]⟩]).getD 0 emptyTarget).masks ∧
      ([false, true, false, false] : BinMask).getD 1 false = true ∧
      gt_region (([⟨[0], [[true, false, false, false]], [(0, 0, 0, 0)]⟩] :
        List Target).getD 0 emptyTarget).masks 1 = false := by
  have hmem : ([false, true, false, false] : BinMask) ∈
      ((generate_psd_targets (4/10) false false 4 2 2 2
        [⟨[0], [[true, false, false, false]], [(0, 0, 0, 0)]⟩]
        [⟨[3], [1], [[1, 1, 0, 0]], [(0, 0, 1, 1)]⟩]).getD 0 emptyTarget).masks := by
    norm_num [generate_psd_targets, generate_psd_target, kept_indices, psd_keep, new_area,
      old_area, non_ol_masks, mask_ids, prob_masks_at, argmaxIdx, argmaxGo, old_labels,
      old_scores, old_masks, old_boxes, filterByScores, scoreKeep, binarize, binAt, gt_region,
      emptyTarget, List.range_succ, List.filter, List.count, List.countP, List.countP.go]
  exact ⟨hmem, by decide,
    psd_masks_disjoint_gt_region (4/10) false false 4 2 2 2
      [⟨[0], [[true, false, false, false]], [(0, 0, 0, 0)]⟩]
      [⟨[3], [1], [[1, 1, 0, 0]], [(0, 0, 1, 1)]⟩] 0
      [false, true, false, false] hmem 1 (by decide)⟩

/-- Helper: a zero binarized area makes every binarized pixel lookup false. -/
theorem binAt_eq_false_of_area_zero (m : ProbMask)
    (h : (binarize m).count true = 0) (p : Nat) : binAt m p = false := by
  have hnot : true ∉ binarize m := List.count_eq_zero.mp h
  by_cases hd : (1/2 : ℚ) ≤ m.getD p 0
  · exfalso
    have hp : p < m.length := by
      by_contra hplen
      rw [getD_of_length_le _ _ _ (Nat.le_of_not_lt hplen)] at hd
      norm_num at hd
    apply hnot
    have hmem : decide ((1/2 : ℚ) ≤ m[p]) ∈ binarize m :=
      List.mem_map.mpr ⟨m[p], List.getElem_mem hp, rfl⟩
    rw [List.getD_eq_getElem _ _ hp] at hd
    rwa [decide_eq_true hd] at hmem
  · rw [binAt]
    exact decide_eq_false hd

/-- Helper: a prediction with zero binarized area has zero post-subtraction
area (its `non_ol_masks` raster is a subset of its binarized mask). -/
theorem new_area_eq_zero_of_old_area_zero (strict_mode : Bool) (nPix : Nat)
    (gt : Target) (old : OldPred) (k : Nat) (h : old_area strict_mode old k = 0) :
    new_area strict_mode nPix gt old k = 0 := by
  rw [new_area, List.count_eq_zero]
  intro hmem
  obtain ⟨p, -, heq⟩ := List.mem_map.mp hmem
  have hbin : binAt ((old_masks strict_mode old).getD k []) p = false :=
    binAt_eq_false_of_area_zero _ h p
  rw [hbin] at heq
  simp at heq

/-- C2: in the default (non-strict) path, prediction `k` is kept exactly when
`new_area k > 0` and `new_area k > old_area k * psd_overlap_threshold`; a
prediction with `old_area k = 0` is never kept, since its post-subtraction
raster is contained in its binarized mask; and the default-mode emitted labels
are exactly the labels of the kept predictions. -/
theorem psd_keep_characterization (psd_overlap_threshold : ℚ) (nPix width : Nat)
    (imgW imgH : ℚ) (gt : Target) (old : OldPred) (k : Nat) :
    (k ∈ kept_indices psd_overlap_threshold false nPix gt old ↔
        k < (old_labels false old).length ∧ 0 < new_area false nPix gt old k ∧
          (old_area false old k : ℚ) * psd_overlap_threshold
            < (new_area false nPix gt old k : ℚ)) ∧
      (old_area false old k = 0 →
        k ∉ kept_indices psd_overlap_threshold false nPix gt old) ∧
      ((old_masks false old).length ≠ 0 →
        (generate_psd_target psd_overlap_threshold false false nPix width imgW imgH
            gt old).labels
          = (kept_indices psd_overlap_threshold false nPix gt old).map
              (fun j => (old_labels false old).getD j 0)) := by
  have hiff : k ∈ kept_indices psd_overlap_threshold false nPix gt old ↔
      k < (old_labels false old).length ∧ 0 < new_area false nPix gt old k ∧
        (old_area false old k : ℚ) * psd_overlap_threshold
          < (new_area false nPix gt old k : ℚ) := by
    simp [kept_indices, psd_keep, List.mem_filter, and_assoc]
  refine ⟨hiff, ?_, ?_⟩
  · intro h0 hmem
    have hpos := (hiff.mp hmem).2.1
    rw [new_area_eq_zero_of_old_area_zero false nPix gt old k h0] at hpos
    exact absurd hpos (by omega)
  · intro h0
    unfold generate_psd_target
    simp [h0]

/-- Witness for C2: a prediction whose probability raster never reaches 0.5
(`old_area = 0`) is not kept. -/
theorem psd_keep_characterization_witness :
    old_area false (⟨[3], [1], [[2/5, 1/5]], [(0, 0, 1, 1)]⟩ : OldPred) 0 = 0 ∧
      0 ∉ kept_indices (4/10) false 2
        (⟨[0], [[false, false]], [(0, 0, 0, 0)]⟩ : Target)
        (⟨[3], [1], [[2/5, 1/5]], [(0, 0, 1, 1)]⟩ : OldPred) := by
  have h0 : old_area false (⟨[3], [1], [[2/5, 1/5]], [(0, 0, 1, 1)]⟩ : OldPred) 0 = 0 := by
    norm_num [old_area, old_masks, old_scores, filterByScores, scoreKeep, binarize,
      List.count, List.countP, List.countP.go]
  exact ⟨h0, (psd_keep_characterization (4/10) 2 2 2 2
    (⟨[0], [[false, false]], [(0, 0, 0, 0)]⟩ : Target)
    (⟨[3], [1], [[2/5, 1/5]], [(0, 0, 1, 1)]⟩ : OldPred) 0).2.1 h0⟩

/-- Helper: the score gate of the default path keeps a nonnegatively scored
prediction list intact. -/
theorem filterByScores_eq_self {α : Type} (scores : List ℚ) (xs : List α)
    (hlen : xs.length ≤ scores.length) (h : ∀ s ∈ scores, 0 ≤ s) :
    filterByScores false scores xs = xs := by
  rw [filterByScores]
  have hall : (scores.zip xs).filter (fun sx => scoreKeep false sx.1) = scores.zip xs := by
    rw [List.filter_eq_self]
    intro a ha
    have has : a.1 ∈ scores := (List.of_mem_zip (by exact ha)).1
    show scoreKeep false a.1 = true
    exact decide_eq_true (h _ has)
  rw [hall]
  exact List.map_snd_zip scores xs hlen

/-- C9 (counterexample): with the default `psd_label_threshold = 0.35`, an
old-model prediction of score 0.2 is discarded by the psd-label inference
filter before `generate_psd_targets` ever sees it, so the candidate set
reaching the area/overlap filter is empty while the old model emitted one
prediction — the candidate set is not the full prediction set. -/
theorem psd_candidates_not_full_set :
    old_labels false (psd_label_output (35/100) 150 [⟨0, 1/5, [1], (0, 0, 1, 1)⟩]) = [] ∧
      ([⟨0, 1/5, [1], (0, 0, 1, 1)⟩] : List QueryPred).map QueryPred.label = [0] ∧
      ([] : List Nat) ≠ [0] := by
  refine ⟨?_, rfl, by decide⟩
  norm_num [old_labels, psd_label_output, psd_label_keep, filterByScores, scoreKeep,
    List.filter]

/-- C9 (amended): `generate_psd_targets` itself applies no score threshold —
its `scores >= 0.0` gate keeps every prediction it receives, scores being
nonnegative — but the predictions it receives are the psd-label inference
output, already filtered by `label ≠ n_cls` and `score > psd_label_threshold`;
the candidate set reaching the area/overlap filter therefore equals that
pre-filtered subset of the predictions of the old model. -/
theorem psd_generator_no_threshold (psd_label_threshold : ℚ) (n_cls : Nat)
    (preds : List QueryPred) (old : OldPred)
    (hlab : old.labels.length ≤ old.scores.length)
    (hmask : old.masks.length ≤ old.scores.length)
    (hsc : ∀ s ∈ old.scores, 0 ≤ s)
    (hpred : ∀ q ∈ preds, 0 ≤ q.score) :
    old_labels false old = old.labels ∧ old_masks false old = old.masks ∧
      old_labels false (psd_label_output psd_label_threshold n_cls preds)
        = (preds.filter (psd_label_keep psd_label_threshold n_cls)).map QueryPred.label := by
  refine ⟨filterByScores_eq_self _ _ hlab hsc, filterByScores_eq_self _ _ hmask hsc, ?_⟩
  apply filterByScores_eq_self
  · simp [psd_label_output]
  · intro s hs
    rw [show (psd_label_output psd_label_threshold n_cls preds).scores
        = (preds.filter (psd_label_keep psd_label_threshold n_cls)).map QueryPred.score
      from rfl] at hs
    obtain ⟨q, hq, rfl⟩ := List.mem_map.mp hs
    exact hpred q (List.mem_of_mem_filter hq)

/-- Witness for the amended C9 theorem: of two predictions, only the
above-threshold one becomes a candidate, and the generator keeps everything it
receives. -/
theorem psd_generator_no_threshold_witness :
    (∀ s ∈ ([1/2] : List ℚ), (0:ℚ) ≤ s) ∧
      (∀ q ∈ ([⟨0, 1/5, [1], (0, 0, 1, 1)⟩, ⟨4, 1/2, [1], (0, 0, 1, 1)⟩] : List QueryPred),
        (0:ℚ) ≤ q.score) ∧
      old_labels false (⟨[4], [1/2], [[1]], [(0, 0, 1, 1)]⟩ : OldPred) = [4] ∧
      old_labels false (psd_label_output (35/100) 150
          [⟨0, 1/5, [1], (0, 0, 1, 1)⟩, ⟨4, 1/2, [1], (0, 0, 1, 1)⟩])
        = (([⟨0, 1/5, [1], (0, 0, 1, 1)⟩, ⟨4, 1/2, [1], (0, 0, 1, 1)⟩] :
            List QueryPred).filter (psd_label_keep (35/100) 150)).map QueryPred.label := by
  have hsc : ∀ s ∈ ([1/2] : List ℚ), (0:ℚ) ≤ s := by
    norm_num [List.forall_mem_cons]
  have hpred : ∀ q ∈ ([⟨0, 1/5, [1], (0, 0, 1, 1)⟩, ⟨4, 1/2, [1], (0, 0, 1, 1)⟩] :
      List QueryPred), (0:ℚ) ≤ q.score := by
    norm_num [List.forall_mem_cons]
  refine ⟨hsc, hpred, ?_, ?_⟩
  · exact (psd_generator_no_threshold (35/100) 150
      [⟨0, 1/5, [1], (0, 0, 1, 1)⟩, ⟨4, 1/2, [1], (0, 0, 1, 1)⟩]
      (⟨[4], [1/2], [[1]], [(0, 0, 1, 1)]⟩ : OldPred)
      (by decide) (by decide) hsc hpred).1
  · exact (psd_generator_no_threshold (35/100) 150
      [⟨0, 1/5, [1], (0, 0, 1, 1)⟩, ⟨4, 1/2, [1], (0, 0, 1, 1)⟩]
      (⟨[4], [1/2], [[1]], [(0, 0, 1, 1)]⟩ : OldPred)
      (by decide) (by decide) hsc hpred).2.2

end SimCIS
